import Mathlib

/-
Verification of the decker conversational file-edit client.

The program (src/main.py, src/utils.py) is a single-threaded interactive
loop; its state is the local filesystem, the append-only conversation
history, the pending console inputs and the console output.  We embed that
state as an explicit record `St` and translate each Python function into a
pure Lean function `St → ... × St`.  Python strings are modelled as
`List Char`; `str.replace(old, new, 1)`, `in`, `strip`, `lower`,
`startswith` and `split` are modelled by the `py*` functions below.
`Path.resolve` is an OS service, so path normalisation is a parameter
`norm : Str → Str` of every operation that uses it.  The remote completion
service is a parameter of a turn: either a parsed JSON document, a JSON
decoding failure, or an API-level error.
-/

set_option autoImplicit false

namespace Decker

/-- Python text, as a list of characters. -/
abbrev Str := List Char

/-- The ASCII whitespace characters stripped by Python `str.strip()`. -/
def isPySpace (c : Char) : Bool :=
  c = ' ' || c = '\t' || c = '\n' || c = '\r' || c = '\x0b' || c = '\x0c'

/-- Python `s.strip()` (ASCII whitespace model). -/
def pyStrip (s : Str) : Str :=
  ((s.dropWhile isPySpace).reverse.dropWhile isPySpace).reverse

/-- Python `s.strip(chars)`: strip the given characters from both ends. -/
def pyStripChars (chars s : Str) : Str :=
  (((s.dropWhile fun c => chars.contains c).reverse.dropWhile
      fun c => chars.contains c)).reverse

/-- Python `s.lower()` (ASCII model). -/
def pyLower (s : Str) : Str := s.map Char.toLower

/-- Python `s.startswith(pre)`. -/
def pyStartsWith : Str → Str → Bool
  | [], _ => true
  | _ :: _, [] => false
  | a :: pre, b :: s => if a = b then pyStartsWith pre s else false

/-- Python `needle in hay` (substring containment). -/
def pyIn (needle : Str) : Str → Bool
  | [] => pyStartsWith needle []
  | c :: rest => pyStartsWith needle (c :: rest) || pyIn needle rest

/-- Python `hay.replace(old, new, 1)`: replace the first occurrence only. -/
def replaceFirst (old new : Str) : Str → Str
  | [] => if pyStartsWith old [] then new else []
  | c :: rest =>
    if pyStartsWith old (c :: rest) then new ++ (c :: rest).drop old.length
    else c :: replaceFirst old new rest

/-- Python `s.split()`: split on whitespace runs, dropping empty words. -/
def pySplit (s : Str) : List Str :=
  (s.foldr
    (fun c acc =>
      if isPySpace c then [] :: acc
      else
        match acc with
        | [] => [[c]]
        | w :: ws => (c :: w) :: ws)
    []).filter fun w => !w.isEmpty

/-- One conversation message: a role tag and text content. -/
structure Message where
  role : Str
  content : Str
deriving DecidableEq

/-- `files_to_create` entry (src/main.py, `FileToCreate`). -/
structure FileToCreate where
  path : Str
  content : Str
deriving DecidableEq

/-- `files_to_edit` entry (src/main.py, `FileToEdit`). -/
structure FileToEdit where
  path : Str
  original_snippet : Str
  new_snippet : Str
deriving DecidableEq

/-- Decoded structured response (src/main.py, `AssistantResponse`).
Optional fields absent or JSON `null` are both `none`. -/
structure AssistantResponse where
  assistant_reply : Str
  files_to_create : Option (List FileToCreate)
  files_to_edit : Option (List FileToEdit)
deriving DecidableEq

/-- A remote reply that did parse as a JSON object, before default filling
and edit filtering: each field may be absent. -/
structure Parsed where
  assistant_reply : Option Str
  files_to_create : Option (List FileToCreate)
  files_to_edit : Option (List FileToEdit)
deriving DecidableEq

/-- Outcome of one remote completion call, as seen by the driver. -/
inductive Remote where
  /-- The accumulated stream buffer parsed as a JSON object. -/
  | ok (parsed : Parsed)
  /-- `json.loads` raised `JSONDecodeError` on the buffer. -/
  | badJson
  /-- The API call itself raised (network, auth, ...). -/
  | apiError (msg : Str)
deriving DecidableEq

/-- The filesystem, as an association list from path to file content. -/
abbrev FS := List (Str × Str)

/-- Read a file; `none` when the path does not exist. -/
def readFS : FS → Str → Option Str
  | [], _ => none
  | (p, c) :: rest, q => if p = q then some c else readFS rest q

/-- Create or overwrite a file. -/
def writeFS : FS → Str → Str → FS
  | [], p, c => [(p, c)]
  | (q, d) :: rest, p, c =>
    if q = p then (p, c) :: rest else (q, d) :: writeFS rest p c

/-- Console output events (rich rendering collapsed to plain payloads). -/
inductive Out where
  | text (s : Str)
  | panel (title body : Str)
  | preview (path content : Str)
  | diffTable (edits : List FileToEdit)
  | prompt (question : Str)
deriving DecidableEq

/-- The whole observable program state: filesystem, conversation history,
pending console input lines and emitted console output. -/
structure St where
  fs : FS
  history : List Message
  inputs : List Str
  outputs : List Out
deriving DecidableEq

/-- Emit one console output event. -/
def emit (o : Out) (st : St) : St :=
  { st with outputs := st.outputs ++ [o] }

/-- `conversation_history.append(\x7brole, content\x7d)`. -/
def appendMsg (role content : Str) (st : St) : St :=
  { st with history := st.history ++ [⟨role, content⟩] }

/-- Consume the next console input line (an exhausted stream reads as ""). -/
def nextInput (st : St) : Str × St :=
  match st.inputs with
  | [] => ([], st)
  | i :: rest => (i, { st with inputs := rest })

/-- The separator between a file marker and the file content in a
conversation message. -/
def contentSep : Str := ":\n\n".data

/-- The content marker text for a path:  Content of file '<path>'. -/
def mkMarker (path : Str) : Str :=
  "Content of file '".data ++ path ++ ['\'']

/-- The full system-message text carrying a file's content. -/
def fileMsgContent (path content : Str) : Str :=
  mkMarker path ++ contentSep ++ content

/-- `confirm_action` (src/utils.py:31): read one line; accept iff the
stripped, lowercased input is exactly "y". -/
def confirm_action (prompt : Str) (st : St) : Bool × St :=
  let st := emit (.prompt prompt) st
  let (i, st) := nextInput st
  (decide (pyLower (pyStrip i) = ['y']), st)

/-- `show_file_preview` (src/utils.py:21). -/
def show_file_preview (path content : Str) (st : St) : St :=
  emit (.preview path content) st

/-- The unconditional write-and-record tail of `create_file`
(src/utils.py:55-76). -/
def create_file_write (norm : Str → Str) (path content : Str) (st : St) : St :=
  let st := { st with fs := writeFS st.fs path content }
  let st := emit (.text ("✓ Created/updated file at '".data ++ path ++ ['\''])) st
  let st := appendMsg "assistant".data
    ("✓ Created/updated file at '".data ++ path ++ ['\'']) st
  appendMsg "system".data (fileMsgContent (norm path) content) st

/-- `create_file` (src/utils.py:36): optional preview/confirmation, then
write the file and append the confirmation and content messages. -/
def create_file (norm : Str → Str) (path content : Str)
    (require_confirmation : Bool) (st : St) : Bool × St :=
  if require_confirmation then
    let st := show_file_preview path content st
    match readFS st.fs path with
    | some _ =>
      let (ok, st) := confirm_action
        ("File '".data ++ path ++ "' already exists. Do you want to overwrite it?".data) st
      if ok then (true, create_file_write norm path content st)
      else (false, emit (.text "ℹ File creation cancelled.".data) st)
    | none =>
      let (ok, st) := confirm_action
        ("Do you want to create '".data ++ path ++ "'?".data) st
      if ok then (true, create_file_write norm path content st)
      else (false, emit (.text "ℹ File creation cancelled.".data) st)
  else (true, create_file_write norm path content st)

/-- `apply_diff_edit` (src/utils.py:94): first-occurrence snippet
replacement, delegating persistence to `create_file` (with its default
`require_confirmation=True`), or a mismatch report. -/
def apply_diff_edit (norm : Str → Str) (path original_snippet new_snippet : Str)
    (st : St) : St :=
  match readFS st.fs path with
  | none => emit (.text ("✗ File not found for diff editing: '".data ++ path ++ ['\''])) st
  | some content =>
    if pyIn original_snippet content then
      let updated := replaceFirst original_snippet new_snippet content
      let (_, st) := create_file norm path updated true st
      let st := emit (.text ("✓ Applied diff edit to '".data ++ path ++ ['\''])) st
      appendMsg "assistant".data ("✓ Applied diff edit to '".data ++ path ++ ['\'']) st
    else
      let st := emit (.text ("⚠ Original snippet not found in '".data ++ path ++
        "'. No changes made.".data)) st
      let st := emit (.panel "Expected".data original_snippet) st
      emit (.panel "Actual".data content) st

/-- `try_handle_add_command` (src/utils.py:116): the `/add ` command,
recording the content under the literal (non-normalized) path text. -/
def try_handle_add_command (user_input : Str) (st : St) : Bool × St :=
  if pyStartsWith "/add ".data (pyLower (pyStrip user_input)) then
    let file_path := pyStrip (user_input.drop 5)
    match readFS st.fs file_path with
    | some content =>
      (true, emit (.text ("✓ Added file '".data ++ file_path ++ "' to conversation.".data))
        (appendMsg "system".data (fileMsgContent file_path content) st))
    | none =>
      (true, emit (.text ("✗ Could not add file '".data ++ file_path ++ ['\''])) st)
  else (false, st)

/-- `ensure_file_in_context` (src/utils.py:133): read the normalized path
and append its content unless some message already contains its marker. -/
def ensure_file_in_context (norm : Str → Str) (file_path : Str) (st : St) :
    Bool × St :=
  let np := norm file_path
  match readFS st.fs np with
  | some content =>
    let st :=
      if st.history.any (fun m => pyIn (mkMarker np) m.content) then st
      else appendMsg "system".data (fileMsgContent np content) st
    (true, st)
  | none =>
    (false, emit (.text ("✗ Could not read file '".data ++ file_path ++
      "' for editing context".data)) st)

/-- The recognized extensions of `guess_files_in_message` (src/utils.py:155). -/
def recognized_extensions : List Str :=
  [".css".data, ".html".data, ".js".data, ".py".data, ".json".data, ".md".data]

/-- `guess_files_in_message` (src/utils.py:153): whitespace-split the
message and normalize every word that looks like a path. -/
def guess_files_in_message (norm : Str → Str) (user_message : Str) : List Str :=
  (pySplit user_message).filterMap fun word =>
    if recognized_extensions.any (fun ext => pyIn ext word) || pyIn ['/'] word
    then some (norm (pyStripChars "',\"".data word))
    else none

/-- The context-gathering loop of `stream_openai_response`
(src/main.py:147-161): read each candidate path, record it in
`valid_files`, and append its content message unless its marker is
already present. -/
def gatherContext : List Str → St → List (Str × Str) × St
  | [], st => ([], st)
  | path :: rest, st =>
    match readFS st.fs path with
    | some content =>
      let st :=
        if st.history.any (fun m => pyIn (mkMarker path) m.content) then st
        else appendMsg "system".data (fileMsgContent path content) st
      let (valid, st) := gatherContext rest st
      ((path, content) :: valid, st)
    | none =>
      let st := emit (.text ("✗ Cannot proceed: File '".data ++ path ++
        "' does not exist or is not accessible".data)) st
      gatherContext rest st

/-- The `files_to_edit` filter of `stream_openai_response`
(src/main.py:193-205): keep an edit when its resolved path is in
`valid_files` or `ensure_file_in_context` succeeds (short-circuit `or`). -/
def filterEdits (norm : Str → Str) (valid : List (Str × Str)) :
    List FileToEdit → St → List FileToEdit × St
  | [], st => ([], st)
  | e :: rest, st =>
    let ap := norm e.path
    if valid.any (fun kv => kv.1 = ap) then
      let (es, st) := filterEdits norm valid rest st
      (⟨ap, e.original_snippet, e.new_snippet⟩ :: es, st)
    else
      let (ok, st) := ensure_file_in_context norm ap st
      if ok then
        let (es, st) := filterEdits norm valid rest st
        (⟨ap, e.original_snippet, e.new_snippet⟩ :: es, st)
      else
        filterEdits norm valid rest st

/-- The fixed diagnostic reply used when the stream buffer is not JSON
(src/main.py:218). -/
def jsonErrText : Str := "Failed to parse JSON response from assistant".data

/-- `stream_openai_response` (src/main.py:137): gather context, append the
user message, then decode the remote outcome into an `AssistantResponse`,
appending the assistant reply on success. -/
def stream_openai_response (norm : Str → Str) (remote : Remote)
    (user_message : Str) (st : St) : AssistantResponse × St :=
  let potential_paths := guess_files_in_message norm user_message
  let (valid_files, st) := gatherContext potential_paths st
  let st := appendMsg "user".data user_message st
  match remote with
  | .apiError e =>
    (⟨"API error: ".data ++ e, some [], none⟩,
      emit (.text ("✗ API error: ".data ++ e)) st)
  | .badJson =>
    (⟨jsonErrText, some [], none⟩, emit (.text ("✗ ".data ++ jsonErrText)) st)
  | .ok parsed =>
    let reply := parsed.assistant_reply.getD []
    let (edits, st) : Option (List FileToEdit) × St :=
      match parsed.files_to_edit with
      | some (e :: es) =>
        let (l, st) := filterEdits norm valid_files (e :: es) st
        (some l, st)
      | other => (other, st)
    let resp : AssistantResponse := ⟨reply, parsed.files_to_create, edits⟩
    (resp, appendMsg "assistant".data reply st)

/-- The `files_to_create` loop of `main` (src/main.py:269-273): apply
creations in order, stopping at the first decline. -/
def applyCreations (norm : Str → Str) : List FileToCreate → St → St
  | [], st => st
  | f :: rest, st =>
    let (ok, st) := create_file norm f.path f.content true st
    if ok then applyCreations norm rest st
    else emit (.text "ℹ Skipping remaining file operations.".data) st

/-- The batch-confirmation question of `main` (src/main.py:278). -/
def applyPrompt : Str := "Do you want to apply these changes?".data

/-- The `files_to_edit` block of `main` (src/main.py:276-282): show the
table, ask one batch confirmation, then apply every edit (or none). -/
def applyEditsBlock (norm : Str → Str) (edits : List FileToEdit) (st : St) : St :=
  let st := emit (.diffTable edits) st
  let (ok, st) := confirm_action applyPrompt st
  if ok then
    edits.foldl (fun st e => apply_diff_edit norm e.path e.original_snippet e.new_snippet st) st
  else emit (.text "ℹ Skipped applying diff edits.".data) st

/-- The per-turn application of a structured response (src/main.py:269-282):
creations (if the list is truthy), then the edit batch (if truthy). -/
def processResponse (norm : Str → Str) (r : AssistantResponse) (st : St) : St :=
  let st :=
    match r.files_to_create with
    | some (f :: fs) => applyCreations norm (f :: fs) st
    | _ => st
  match r.files_to_edit with
  | some (e :: es) => applyEditsBlock norm (e :: es) st
  | _ => st

/-- One full model turn: the completion driver followed by the application
of the structured response. -/
def modelTurn (norm : Str → Str) (remote : Remote) (user_input : Str)
    (st : St) : AssistantResponse × St :=
  let (r, st) := stream_openai_response norm remote user_input st
  (r, processResponse norm r st)

/-- One iteration of the interactive loop of `main` (src/main.py:247-282):
the user line is stripped; empty input and exit commands are no-ops here,
the add command and model turns mutate the state. -/
def loopStep (norm : Str → Str) (remote : Remote) (raw : Str) (st : St) : St :=
  let u := pyStrip raw
  if u = [] then st
  else if pyLower u = "exit".data ∨ pyLower u = "quit".data then st
  else
    let (handled, st') := try_handle_add_command u st
    if handled then st'
    else (modelTurn norm remote u st').2

/-- The number of conversation messages whose content contains the given
marker text as a substring. -/
def countMarker (marker : Str) (h : List Message) : Nat :=
  (h.filter fun m => pyIn marker m.content).length

/-- Both the history and the output log of `st'` extend those of `st`:
the state transition only appended. -/
def stepMono (st st' : St) : Prop :=
  (∃ t, st'.history = st.history ++ t) ∧ (∃ t, st'.outputs = st.outputs ++ t)

@[simp] theorem emit_fs (o : Out) (st : St) : (emit o st).fs = st.fs := rfl

@[simp] theorem emit_history (o : Out) (st : St) : (emit o st).history = st.history := rfl

@[simp] theorem emit_inputs (o : Out) (st : St) : (emit o st).inputs = st.inputs := rfl

@[simp] theorem emit_outputs (o : Out) (st : St) :
    (emit o st).outputs = st.outputs ++ [o] := rfl

@[simp] theorem appendMsg_fs (r c : Str) (st : St) : (appendMsg r c st).fs = st.fs := rfl

@[simp] theorem appendMsg_history (r c : Str) (st : St) :
    (appendMsg r c st).history = st.history ++ [⟨r, c⟩] := rfl

@[simp] theorem appendMsg_inputs (r c : Str) (st : St) :
    (appendMsg r c st).inputs = st.inputs := rfl

@[simp] theorem appendMsg_outputs (r c : Str) (st : St) :
    (appendMsg r c st).outputs = st.outputs := rfl

theorem pyStartsWith_iff (a : Str) : ∀ b : Str,
    pyStartsWith a b = true ↔ ∃ t, b = a ++ t := by
  induction a with
  | nil => intro b; simp [pyStartsWith]
  | cons x xs ih =>
    intro b
    cases b with
    | nil => simp [pyStartsWith]
    | cons y ys =>
      simp only [pyStartsWith, List.cons_append]
      by_cases hxy : x = y
      · subst hxy
        rw [if_pos rfl, ih ys]
        constructor
        · rintro ⟨t, rfl⟩; exact ⟨t, rfl⟩
        · rintro ⟨t, ht⟩
          obtain ⟨-, h2⟩ := List.cons.inj ht
          exact ⟨t, h2⟩
      · rw [if_neg hxy]
        constructor
        · intro h; cases h
        · rintro ⟨t, ht⟩
          obtain ⟨h1, -⟩ := List.cons.inj ht
          exact absurd h1.symm hxy

theorem pyIn_iff (needle : Str) : ∀ hay : Str,
    pyIn needle hay = true ↔ ∃ pre suf, hay = pre ++ needle ++ suf := by
  intro hay
  induction hay with
  | nil =>
    simp only [pyIn]
    rw [pyStartsWith_iff]
    constructor
    · rintro ⟨t, ht⟩
      obtain ⟨hn, -⟩ := List.append_eq_nil.mp ht.symm
      exact ⟨[], [], by simp [hn]⟩
    · rintro ⟨pre, suf, h⟩
      obtain ⟨h2, -⟩ := List.append_eq_nil.mp h.symm
      obtain ⟨-, hn⟩ := List.append_eq_nil.mp h2
      exact ⟨[], by simp [hn]⟩
  | cons c rest ih =>
    simp only [pyIn, Bool.or_eq_true, ih, pyStartsWith_iff]
    constructor
    · rintro (⟨t, ht⟩ | ⟨pre, suf, hps⟩)
      · exact ⟨[], t, by simp [ht]⟩
      · exact ⟨c :: pre, suf, by simp [hps]⟩
    · rintro ⟨pre, suf, hps⟩
      cases pre with
      | nil => exact Or.inl ⟨suf, by simpa using hps⟩
      | cons d pre2 =>
        obtain ⟨-, h2⟩ := List.cons.inj hps
        exact Or.inr ⟨pre2, suf, h2⟩

theorem replaceFirst_spec (old new : Str) : ∀ hay : Str, pyIn old hay = true →
    ∃ pre suf, hay = pre ++ old ++ suf ∧
      replaceFirst old new hay = pre ++ new ++ suf ∧
      ∀ pre2 suf2, hay = pre2 ++ old ++ suf2 → pre.length ≤ pre2.length := by
  intro hay
  induction hay with
  | nil =>
    intro h
    simp only [pyIn] at h
    obtain ⟨t, ht⟩ := (pyStartsWith_iff _ _).mp h
    obtain ⟨hn, -⟩ := List.append_eq_nil.mp ht.symm
    refine ⟨[], [], by simp [hn], ?_, ?_⟩
    · simp only [replaceFirst, if_pos h]
      simp
    · intro pre2 suf2 _; simp
  | cons c rest ih =>
    intro h
    by_cases hp : pyStartsWith old (c :: rest) = true
    · obtain ⟨t, ht⟩ := (pyStartsWith_iff _ _).mp hp
      refine ⟨[], t, by simpa using ht, ?_, ?_⟩
      · simp only [replaceFirst, if_pos hp]
        rw [ht, List.drop_left]
        simp
      · intro pre2 suf2 _; simp
    · have h' : pyIn old rest = true := by
        simp only [pyIn, Bool.or_eq_true] at h
        rcases h with h | h
        · exact absurd h hp
        · exact h
      obtain ⟨pre, suf, h1, h2, h3⟩ := ih h'
      refine ⟨c :: pre, suf, by simp [h1], ?_, ?_⟩
      · simp only [replaceFirst, if_neg hp, h2]
        simp
      · intro pre2 suf2 heq
        cases pre2 with
        | nil =>
          exfalso
          apply hp
          apply (pyStartsWith_iff _ _).mpr
          exact ⟨suf2, by simpa using heq⟩
        | cons d pre3 =>
          obtain ⟨-, h5⟩ := List.cons.inj heq
          simpa using Nat.succ_le_succ (h3 pre3 suf2 h5)

theorem readFS_writeFS_self (fs : FS) (p c : Str) :
    readFS (writeFS fs p c) p = some c := by
  induction fs with
  | nil => simp [writeFS, readFS]
  | cons hd tl ih =>
    obtain ⟨q, d⟩ := hd
    by_cases hqp : q = p
    · subst hqp; simp [writeFS, readFS]
    · simp [writeFS, readFS, hqp, ih]

/-- The marker of a path occurs in the content message built for it. -/
theorem pyIn_marker_fileMsg (p c : Str) :
    pyIn (mkMarker p) (fileMsgContent p c) = true := by
  rw [pyIn_iff]
  exact ⟨[], contentSep ++ c, by simp [fileMsgContent]⟩

theorem stepMono_refl (st : St) : stepMono st st :=
  ⟨⟨[], by simp⟩, ⟨[], by simp⟩⟩

theorem stepMono_trans {a b c : St} (h1 : stepMono a b) (h2 : stepMono b c) :
    stepMono a c := by
  obtain ⟨⟨t1, ht1⟩, ⟨u1, hu1⟩⟩ := h1
  obtain ⟨⟨t2, ht2⟩, ⟨u2, hu2⟩⟩ := h2
  exact ⟨⟨t1 ++ t2, by rw [ht2, ht1, List.append_assoc]⟩,
         ⟨u1 ++ u2, by rw [hu2, hu1, List.append_assoc]⟩⟩

theorem stepMono_emit (o : Out) (st : St) : stepMono st (emit o st) :=
  ⟨⟨[], by simp⟩, ⟨[o], rfl⟩⟩

theorem stepMono_appendMsg (r c : Str) (st : St) : stepMono st (appendMsg r c st) :=
  ⟨⟨[⟨r, c⟩], rfl⟩, ⟨[], by simp⟩⟩

theorem stepMono_nextInput (st : St) : stepMono st (nextInput st).2 := by
  refine ⟨⟨[], ?_⟩, ⟨[], ?_⟩⟩ <;> cases hi : st.inputs <;> simp [nextInput, hi]

theorem stepMono_confirm (q : Str) (st : St) : stepMono st (confirm_action q st).2 := by
  have h2 := stepMono_nextInput (emit (.prompt q) st)
  rcases hni : nextInput (emit (.prompt q) st) with ⟨i, st2⟩
  rw [hni] at h2
  have hc : (confirm_action q st).2 = st2 := by simp [confirm_action, hni]
  rw [hc]
  exact stepMono_trans (stepMono_emit _ st) h2

theorem stepMono_create_file_write (norm : Str → Str) (p c : Str) (st : St) :
    stepMono st (create_file_write norm p c st) := by
  refine stepMono_trans (b := { st with fs := writeFS st.fs p c }) ⟨⟨[], by simp⟩, ⟨[], by simp⟩⟩ ?_
  exact stepMono_trans (stepMono_emit _ _)
    (stepMono_trans (stepMono_appendMsg _ _ _) (stepMono_appendMsg _ _ _))

theorem stepMono_create_file (norm : Str → Str) (p c : Str) (rc : Bool) (st : St) :
    stepMono st (create_file norm p c rc st).2 := by
  cases rc with
  | false => exact stepMono_create_file_write norm p c st
  | true =>
    have hbase : stepMono st (show_file_preview p c st) := stepMono_emit _ st
    cases hr : readFS (show_file_preview p c st).fs p with
    | some d =>
      rcases hca : confirm_action
          ("File '".data ++ p ++ "' already exists. Do you want to overwrite it?".data)
          (show_file_preview p c st) with ⟨ok, st2⟩
      have hm := stepMono_confirm
        ("File '".data ++ p ++ "' already exists. Do you want to overwrite it?".data)
        (show_file_preview p c st)
      rw [hca] at hm
      have hb2 := stepMono_trans hbase hm
      simp only [create_file, hr, hca]
      cases ok with
      | false =>
        simp only [Bool.false_eq_true, if_false]
        exact stepMono_trans hb2 (stepMono_emit _ _)
      | true =>
        simp only [if_true]
        exact stepMono_trans hb2 (stepMono_create_file_write _ _ _ _)
    | none =>
      rcases hca : confirm_action
          ("Do you want to create '".data ++ p ++ "'?".data)
          (show_file_preview p c st) with ⟨ok, st2⟩
      have hm := stepMono_confirm
        ("Do you want to create '".data ++ p ++ "'?".data)
        (show_file_preview p c st)
      rw [hca] at hm
      have hb2 := stepMono_trans hbase hm
      simp only [create_file, hr, hca]
      cases ok with
      | false =>
        simp only [Bool.false_eq_true, if_false]
        exact stepMono_trans hb2 (stepMono_emit _ _)
      | true =>
        simp only [if_true]
        exact stepMono_trans hb2 (stepMono_create_file_write _ _ _ _)

theorem stepMono_apply_diff_edit (norm : Str → Str) (p o n : Str) (st : St) :
    stepMono st (apply_diff_edit norm p o n st) := by
  cases hr : readFS st.fs p with
  | none =>
    simp only [apply_diff_edit, hr]
    exact stepMono_emit _ st
  | some content =>
    by_cases hin : pyIn o content = true
    · rcases hcf : create_file norm p (replaceFirst o n content) true st with ⟨ok, st2⟩
      have h1 := stepMono_create_file norm p (replaceFirst o n content) true st
      rw [hcf] at h1
      simp only [apply_diff_edit, hr, hin, if_true, hcf]
      exact stepMono_trans h1 (stepMono_trans (stepMono_emit _ _) (stepMono_appendMsg _ _ _))
    · simp only [apply_diff_edit, hr, if_neg hin]
      exact stepMono_trans (stepMono_emit _ _)
        (stepMono_trans (stepMono_emit _ _) (stepMono_emit _ _))

theorem stepMono_ensure (norm : Str → Str) (x : Str) (st : St) :
    stepMono st (ensure_file_in_context norm x st).2 := by
  cases hr : readFS st.fs (norm x) with
  | none =>
    simp only [ensure_file_in_context, hr]
    exact stepMono_emit _ st
  | some content =>
    simp only [ensure_file_in_context, hr]
    by_cases ha : st.history.any (fun m => pyIn (mkMarker (norm x)) m.content) = true
    · rw [if_pos ha]; exact stepMono_refl st
    · rw [if_neg ha]; exact stepMono_appendMsg _ _ st

theorem stepMono_gatherContext (paths : List Str) :
    ∀ st : St, stepMono st (gatherContext paths st).2 := by
  induction paths with
  | nil => intro st; exact stepMono_refl st
  | cons p rest ih =>
    intro st
    cases hr : readFS st.fs p with
    | none =>
      simp only [gatherContext, hr]
      exact stepMono_trans (stepMono_emit _ st) (ih _)
    | some content =>
      simp only [gatherContext, hr]
      have h1 : stepMono st
          (if st.history.any (fun m => pyIn (mkMarker p) m.content) then st
           else appendMsg "system".data (fileMsgContent p content) st) := by
        by_cases ha : st.history.any (fun m => pyIn (mkMarker p) m.content) = true
        · rw [if_pos ha]; exact stepMono_refl st
        · rw [if_neg ha]; exact stepMono_appendMsg _ _ st
      rcases hg : gatherContext rest
          (if st.history.any (fun m => pyIn (mkMarker p) m.content) then st
           else appendMsg "system".data (fileMsgContent p content) st) with ⟨v, st2⟩
      have h2 := ih (if st.history.any (fun m => pyIn (mkMarker p) m.content) then st
           else appendMsg "system".data (fileMsgContent p content) st)
      rw [hg] at h2
      simp only [hg]
      exact stepMono_trans h1 h2

theorem stepMono_filterEdits (norm : Str → Str) (valid : List (Str × Str))
    (edits : List FileToEdit) : ∀ st : St, stepMono st (filterEdits norm valid edits st).2 := by
  induction edits with
  | nil => intro st; exact stepMono_refl st
  | cons e rest ih =>
    intro st
    by_cases hv : valid.any (fun kv => kv.1 = norm e.path) = true
    · rcases hf : filterEdits norm valid rest st with ⟨es, st2⟩
      have h2 := ih st
      rw [hf] at h2
      simp only [filterEdits, if_pos hv, hf]
      exact h2
    · rcases he : ensure_file_in_context norm (norm e.path) st with ⟨ok, st1⟩
      have h1 := stepMono_ensure norm (norm e.path) st
      rw [he] at h1
      rcases hf : filterEdits norm valid rest st1 with ⟨es, st2⟩
      have h2 := ih st1
      rw [hf] at h2
      simp only [filterEdits, if_neg hv, he, hf]
      cases ok with
      | true => exact stepMono_trans h1 h2
      | false => exact stepMono_trans h1 h2

theorem stepMono_stream (norm : Str → Str) (remote : Remote) (u : Str) (st : St) :
    stepMono st (stream_openai_response norm remote u st).2 := by
  rcases hg : gatherContext (guess_files_in_message norm u) st with ⟨valid, st1⟩
  have h1 := stepMono_gatherContext (guess_files_in_message norm u) st
  rw [hg] at h1
  have h2 : stepMono st (appendMsg "user".data u st1) :=
    stepMono_trans h1 (stepMono_appendMsg _ _ _)
  cases remote with
  | apiError e =>
    simp only [stream_openai_response, hg]
    exact stepMono_trans h2 (stepMono_emit _ _)
  | badJson =>
    simp only [stream_openai_response, hg]
    exact stepMono_trans h2 (stepMono_emit _ _)
  | ok parsed =>
    simp only [stream_openai_response, hg]
    cases hfe : parsed.files_to_edit with
    | none => exact stepMono_trans h2 (stepMono_appendMsg _ _ _)
    | some l =>
      cases l with
      | nil => exact stepMono_trans h2 (stepMono_appendMsg _ _ _)
      | cons e es =>
        rcases hf : filterEdits norm valid (e :: es) (appendMsg "user".data u st1)
          with ⟨l2, st2⟩
        have h3 := stepMono_filterEdits norm valid (e :: es) (appendMsg "user".data u st1)
        rw [hf] at h3
        simp only [hf]
        exact stepMono_trans h2 (stepMono_trans h3 (stepMono_appendMsg _ _ _))

theorem stepMono_applyCreations (norm : Str → Str) (l : List FileToCreate) :
    ∀ st : St, stepMono st (applyCreations norm l st) := by
  induction l with
  | nil => intro st; exact stepMono_refl st
  | cons f rest ih =>
    intro st
    rcases hc : create_file norm f.path f.content true st with ⟨ok, st1⟩
    have h1 := stepMono_create_file norm f.path f.content true st
    rw [hc] at h1
    simp only [applyCreations, hc]
    cases ok with
    | true => exact stepMono_trans h1 (ih st1)
    | false => exact stepMono_trans h1 (stepMono_emit _ _)

theorem stepMono_foldl_edits (norm : Str → Str) (edits : List FileToEdit) :
    ∀ st : St, stepMono st
      (edits.foldl (fun st e => apply_diff_edit norm e.path e.original_snippet e.new_snippet st) st) := by
  induction edits with
  | nil => intro st; exact stepMono_refl st
  | cons e rest ih =>
    intro st
    simp only [List.foldl_cons]
    exact stepMono_trans (stepMono_apply_diff_edit norm e.path e.original_snippet e.new_snippet st)
      (ih _)

theorem stepMono_applyEditsBlock (norm : Str → Str) (edits : List FileToEdit) (st : St) :
    stepMono st (applyEditsBlock norm edits st) := by
  have hbase : stepMono st (emit (.diffTable edits) st) := stepMono_emit _ st
  rcases hca : confirm_action applyPrompt (emit (.diffTable edits) st) with ⟨ok, st2⟩
  have hm := stepMono_confirm applyPrompt (emit (.diffTable edits) st)
  rw [hca] at hm
  have hb2 := stepMono_trans hbase hm
  simp only [applyEditsBlock, hca]
  cases ok with
  | true => exact stepMono_trans hb2 (stepMono_foldl_edits norm edits st2)
  | false => exact stepMono_trans hb2 (stepMono_emit _ _)

theorem stepMono_processResponse (norm : Str → Str) (r : AssistantResponse) (st : St) :
    stepMono st (processResponse norm r st) := by
  have h1 : stepMono st
      (match r.files_to_create with
       | some (f :: fs) => applyCreations norm (f :: fs) st
       | _ => st) := by
    cases hfc : r.files_to_create with
    | none => exact stepMono_refl st
    | some l =>
      cases l with
      | nil => exact stepMono_refl st
      | cons f fs => exact stepMono_applyCreations norm (f :: fs) st
  have h2 : ∀ st1 : St, stepMono st1
      (match r.files_to_edit with
       | some (e :: es) => applyEditsBlock norm (e :: es) st1
       | _ => st1) := by
    intro st1
    cases hfe : r.files_to_edit with
    | none => exact stepMono_refl st1
    | some l =>
      cases l with
      | nil => exact stepMono_refl st1
      | cons e es => exact stepMono_applyEditsBlock norm (e :: es) st1
  exact stepMono_trans h1 (h2 _)

theorem stepMono_try_add (u : Str) (st : St) :
    stepMono st (try_handle_add_command u st).2 := by
  by_cases hp : pyStartsWith "/add ".data (pyLower (pyStrip u)) = true
  · simp only [try_handle_add_command, if_pos hp]
    cases hr : readFS st.fs (pyStrip (u.drop 5)) with
    | some content =>
      exact stepMono_trans (stepMono_appendMsg _ _ st) (stepMono_emit _ _)
    | none => exact stepMono_emit _ st
  · simp only [try_handle_add_command, if_neg hp]
    exact stepMono_refl st

theorem stepMono_modelTurn (norm : Str → Str) (remote : Remote) (u : Str) (st : St) :
    stepMono st (modelTurn norm remote u st).2 := by
  rcases hs : stream_openai_response norm remote u st with ⟨r, st1⟩
  have h1 := stepMono_stream norm remote u st
  rw [hs] at h1
  simp only [modelTurn, hs]
  exact stepMono_trans h1 (stepMono_processResponse norm r st1)

theorem stepMono_loopStep (norm : Str → Str) (remote : Remote) (raw : Str) (st : St) :
    stepMono st (loopStep norm remote raw st) := by
  by_cases h0 : pyStrip raw = []
  · simp only [loopStep, if_pos h0]; exact stepMono_refl st
  · by_cases h1 : pyLower (pyStrip raw) = "exit".data ∨ pyLower (pyStrip raw) = "quit".data
    · simp only [loopStep, if_neg h0, if_pos h1]; exact stepMono_refl st
    · rcases ha : try_handle_add_command (pyStrip raw) st with ⟨handled, st1⟩
      have h2 := stepMono_try_add (pyStrip raw) st
      rw [ha] at h2
      simp only [loopStep, if_neg h0, if_neg h1, ha]
      cases handled with
      | true => exact h2
      | false => exact stepMono_trans h2 (stepMono_modelTurn norm remote (pyStrip raw) st1)

theorem gatherContext_fs (paths : List Str) :
    ∀ st : St, (gatherContext paths st).2.fs = st.fs := by
  induction paths with
  | nil => intro st; rfl
  | cons p rest ih =>
    intro st
    cases hr : readFS st.fs p with
    | none =>
      simp only [gatherContext, hr]
      rw [ih]
      simp
    | some content =>
      simp only [gatherContext, hr]
      rcases hg : gatherContext rest
          (if st.history.any (fun m => pyIn (mkMarker p) m.content) then st
           else appendMsg "system".data (fileMsgContent p content) st) with ⟨v, st2⟩
      have h2 := ih (if st.history.any (fun m => pyIn (mkMarker p) m.content) then st
           else appendMsg "system".data (fileMsgContent p content) st)
      rw [hg] at h2
      simp only [hg]
      rw [h2]
      by_cases ha : st.history.any (fun m => pyIn (mkMarker p) m.content) = true
      · rw [if_pos ha]
      · rw [if_neg ha]; simp

theorem countMarker_append (M : Str) (h : List Message) (msg : Message) :
    countMarker M (h ++ [msg]) =
      countMarker M h + (if pyIn M msg.content then 1 else 0) := by
  simp only [countMarker, List.filter_append]
  by_cases hp : pyIn M msg.content = true
  · simp [hp]
  · simp [List.filter, hp]

theorem countMarker_zero_of_any_false (M : Str) (h : List Message)
    (ha : h.any (fun m => pyIn M m.content) = false) : countMarker M h = 0 := by
  simp only [countMarker, List.length_eq_zero]
  rw [List.filter_eq_nil_iff]
  intro m hm
  have := List.any_eq_false.mp ha m hm
  simpa using this

theorem gather_countMarker_le_one (P : Str) (paths : List Str) :
    ∀ st : St, countMarker (mkMarker P) st.history ≤ 1 →
    (∀ q, q ∈ paths → q ≠ P → ∀ c, readFS st.fs q = some c →
      pyIn (mkMarker P) (fileMsgContent q c) = false) →
    countMarker (mkMarker P) (gatherContext paths st).2.history ≤ 1 := by
  induction paths with
  | nil => intro st h _; exact h
  | cons p rest ih =>
    intro st h hcol
    cases hr : readFS st.fs p with
    | none =>
      simp only [gatherContext, hr]
      apply ih
      · simpa using h
      · intro q hq hne c hrc
        exact hcol q (List.mem_cons_of_mem _ hq) hne c (by simpa using hrc)
    | some content =>
      simp only [gatherContext, hr]
      rcases hg : gatherContext rest
          (if st.history.any (fun m => pyIn (mkMarker p) m.content) then st
           else appendMsg "system".data (fileMsgContent p content) st) with ⟨v, st2⟩
      simp only [hg]
      have hc1 : countMarker (mkMarker P)
          (if st.history.any (fun m => pyIn (mkMarker p) m.content) then st
           else appendMsg "system".data (fileMsgContent p content) st).history ≤ 1 := by
        by_cases ha : st.history.any (fun m => pyIn (mkMarker p) m.content) = true
        · rw [if_pos ha]; exact h
        · rw [if_neg ha]
          have ha' : st.history.any (fun m => pyIn (mkMarker p) m.content) = false := by
            simpa using ha
          by_cases hpP : p = P
          · subst hpP
            have hz := countMarker_zero_of_any_false (mkMarker p) st.history ha'
            rw [appendMsg_history, countMarker_append, hz]
            by_cases hin : pyIn (mkMarker p) (fileMsgContent p content) = true
            · simp [hin]
            · simp [hin]
          · have hno := hcol p (List.mem_cons_self _ _) hpP content hr
            rw [appendMsg_history, countMarker_append, hno]
            simpa using h
      have hfs1 : (if st.history.any (fun m => pyIn (mkMarker p) m.content) then st
           else appendMsg "system".data (fileMsgContent p content) st).fs = st.fs := by
        by_cases ha : st.history.any (fun m => pyIn (mkMarker p) m.content) = true
        · rw [if_pos ha]
        · rw [if_neg ha]; simp
      have hrec := ih (if st.history.any (fun m => pyIn (mkMarker p) m.content) then st
           else appendMsg "system".data (fileMsgContent p content) st) hc1
        (fun q hq hne c hrc =>
          hcol q (List.mem_cons_of_mem _ hq) hne c (by rw [hfs1] at hrc; exact hrc))
      rw [hg] at hrec
      exact hrec

theorem ensure_countMarker_le_one (P : Str) (norm : Str → Str) (x : Str) (st : St)
    (h : countMarker (mkMarker P) st.history ≤ 1)
    (hcol : norm x ≠ P → ∀ c, readFS st.fs (norm x) = some c →
      pyIn (mkMarker P) (fileMsgContent (norm x) c) = false) :
    countMarker (mkMarker P) (ensure_file_in_context norm x st).2.history ≤ 1 := by
  cases hr : readFS st.fs (norm x) with
  | none =>
    simp only [ensure_file_in_context, hr]
    simpa using h
  | some content =>
    simp only [ensure_file_in_context, hr]
    by_cases ha : st.history.any (fun m => pyIn (mkMarker (norm x)) m.content) = true
    · rw [if_pos ha]; exact h
    · rw [if_neg ha]
      have ha' : st.history.any (fun m => pyIn (mkMarker (norm x)) m.content) = false := by
        simpa using ha
      by_cases hpP : norm x = P
      · rw [hpP] at ha' ⊢
        have hz := countMarker_zero_of_any_false (mkMarker P) st.history ha'
        rw [appendMsg_history, countMarker_append, hz]
        by_cases hin : pyIn (mkMarker P) (fileMsgContent P content) = true
        · simp [hin]
        · simp [hin]
      · have hno := hcol hpP content hr
        rw [appendMsg_history, countMarker_append, hno]
        simpa using h

@[simp] theorem create_file_write_fs (norm : Str → Str) (p c : Str) (st : St) :
    (create_file_write norm p c st).fs = writeFS st.fs p c := rfl

@[simp] theorem create_file_write_history (norm : Str → Str) (p c : Str) (st : St) :
    (create_file_write norm p c st).history = st.history ++
      [⟨"assistant".data, "✓ Created/updated file at '".data ++ p ++ ['\'']⟩,
       ⟨"system".data, fileMsgContent (norm p) c⟩] := by
  simp [create_file_write]

@[simp] theorem create_file_write_inputs (norm : Str → Str) (p c : Str) (st : St) :
    (create_file_write norm p c st).inputs = st.inputs := rfl

/-- Evaluation of `create_file` with confirmation requested and granted:
it reports success, writes the file, appends exactly the assistant
confirmation message and the system content message, and consumes one
input line. -/
theorem create_file_accept (norm : Str → Str) (p c : Str) (st : St) (i : Str)
    (rest : List Str) (hinp : st.inputs = i :: rest)
    (hacc : pyLower (pyStrip i) = ['y']) :
    (create_file norm p c true st).1 = true ∧
    (create_file norm p c true st).2.fs = writeFS st.fs p c ∧
    (create_file norm p c true st).2.history = st.history ++
      [⟨"assistant".data, "✓ Created/updated file at '".data ++ p ++ ['\'']⟩,
       ⟨"system".data, fileMsgContent (norm p) c⟩] ∧
    (create_file norm p c true st).2.inputs = rest := by
  have hd : decide (pyLower (pyStrip i) = ['y']) = true := decide_eq_true hacc
  cases hr : readFS st.fs p with
  | some d =>
    refine ⟨?_, ?_, ?_, ?_⟩ <;>
      simp [create_file, show_file_preview, hr, confirm_action, nextInput, hinp, hd]
  | none =>
    refine ⟨?_, ?_, ?_, ?_⟩ <;>
      simp [create_file, show_file_preview, hr, confirm_action, nextInput, hinp, hd]

/-- C2: when `original_snippet` occurs in the file, the edit rewrites the
file to the original content with exactly its first occurrence replaced by
`new_snippet`, and the length changes by `len(new) - len(old)`.  (The
persisting `create_file` call asks for overwrite confirmation — see the
C1 finding — so the write is conditional on an accepting input line.) -/
theorem apply_diff_edit_first_occurrence (norm : Str → Str) (p old new : Str)
    (st : St) (content i : Str) (rest : List Str)
    (hread : readFS st.fs p = some content)
    (hin : pyIn old content = true)
    (hinp : st.inputs = i :: rest)
    (hacc : pyLower (pyStrip i) = ['y']) :
    ∃ pre suf,
      content = pre ++ old ++ suf ∧
      readFS (apply_diff_edit norm p old new st).fs p = some (pre ++ new ++ suf) ∧
      (∀ pre2 suf2, content = pre2 ++ old ++ suf2 → pre.length ≤ pre2.length) ∧
      ((pre ++ new ++ suf).length : Int) - content.length =
        (new.length : Int) - old.length := by
  obtain ⟨pre, suf, h1, h2, h3⟩ := replaceFirst_spec old new content hin
  obtain ⟨-, hfs, -, -⟩ :=
    create_file_accept norm p (replaceFirst old new content) st i rest hinp hacc
  refine ⟨pre, suf, h1, ?_, h3, ?_⟩
  · have hfs2 : (apply_diff_edit norm p old new st).fs =
        writeFS st.fs p (replaceFirst old new content) := by
      rcases hc : create_file norm p (replaceFirst old new content) true st with ⟨ok, st2⟩
      rw [hc] at hfs
      simp only [apply_diff_edit, hread, hin, if_true, hc]
      simpa using hfs
    rw [hfs2, readFS_writeFS_self, h2]
  · rw [h1]
    simp only [List.length_append]
    omega

theorem apply_diff_edit_first_occurrence_witness :
    ∃ pre suf,
      "foo bar baz".data = pre ++ "bar".data ++ suf ∧
      readFS (apply_diff_edit id "b.txt".data "bar".data "BAR".data
        ⟨[("b.txt".data, "foo bar baz".data)], [], ["y".data], []⟩).fs "b.txt".data
        = some (pre ++ "BAR".data ++ suf) ∧
      (∀ pre2 suf2, "foo bar baz".data = pre2 ++ "bar".data ++ suf2 →
        pre.length ≤ pre2.length) ∧
      ((pre ++ "BAR".data ++ suf).length : Int) - "foo bar baz".data.length =
        ("BAR".data.length : Int) - "bar".data.length :=
  apply_diff_edit_first_occurrence id "b.txt".data "bar".data "BAR".data
    ⟨[("b.txt".data, "foo bar baz".data)], [], ["y".data], []⟩
    "foo bar baz".data "y".data [] (by decide) (by decide) rfl (by decide)

/-- C3: when `original_snippet` does not occur in the file's content, the
edit changes nothing at all — same filesystem, same conversation history,
same pending inputs — and only emits the mismatch report, a panel with the
expected snippet and a panel with the file's actual content. -/
theorem apply_diff_edit_mismatch_noop (norm : Str → Str) (p old new : Str)
    (st : St) (content : Str)
    (hread : readFS st.fs p = some content)
    (hnot : pyIn old content = false) :
    apply_diff_edit norm p old new st =
      { st with outputs := st.outputs ++
          [.text ("⚠ Original snippet not found in '".data ++ p ++
             "'. No changes made.".data),
           .panel "Expected".data old,
           .panel "Actual".data content] } := by
  simp [apply_diff_edit, hread, hnot, emit]

theorem apply_diff_edit_mismatch_noop_witness :
    apply_diff_edit id "b.txt".data "qux".data "QUX".data
      ⟨[("b.txt".data, "foo bar baz".data)], [], [], []⟩ =
    ⟨[("b.txt".data, "foo bar baz".data)], [], [],
      [.text "⚠ Original snippet not found in 'b.txt'. No changes made.".data,
       .panel "Expected".data "qux".data,
       .panel "Actual".data "foo bar baz".data]⟩ := by
  exact apply_diff_edit_mismatch_noop id "b.txt".data "qux".data "QUX".data
    ⟨[("b.txt".data, "foo bar baz".data)], [], [], []⟩
    "foo bar baz".data (by decide) (by decide)

/-- C9: the confirmation prompt accepts exactly when the input line,
stripped of surrounding whitespace and lowercased, equals "y"; in
particular "yes", "Y es" and the empty input all decline, while " Y "
accepts. -/
theorem confirm_exact_y :
    (∀ (q s : Str) (rest : List Str) (st : St), st.inputs = s :: rest →
      ((confirm_action q st).1 = true ↔ pyLower (pyStrip s) = ['y'])) ∧
    (confirm_action [] ⟨[], [], ["yes".data], []⟩).1 = false ∧
    (confirm_action [] ⟨[], [], [" Y ".data], []⟩).1 = true ∧
    (confirm_action [] ⟨[], [], ["Y es".data], []⟩).1 = false ∧
    (confirm_action [] ⟨[], [], [[]], []⟩).1 = false := by
  refine ⟨?_, by decide, by decide, by decide, by decide⟩
  intro q s rest st hinp
  simp [confirm_action, nextInput, hinp]

theorem confirm_exact_y_witness :
    (confirm_action [] ⟨[], [], ["y".data], []⟩).1 = true ↔
      pyLower (pyStrip "y".data) = ['y'] :=
  confirm_exact_y.1 [] "y".data [] ⟨[], [], ["y".data], []⟩ rfl

/-- C10: every accepted creation/overwrite appends exactly two messages —
the assistant confirmation and the system content message carrying the
path's marker — for any prior history (no marker-presence check), so two
successive creations of the same file append two messages that both
contain the same marker. -/
theorem create_file_two_messages_unconditional (norm : Str → Str) (p c1 c2 : Str)
    (st : St) (i j : Str) (rest : List Str)
    (hinp : st.inputs = i :: j :: rest)
    (hi : pyLower (pyStrip i) = ['y']) (hj : pyLower (pyStrip j) = ['y']) :
    (create_file norm p c1 true st).1 = true ∧
    (create_file norm p c1 true st).2.history = st.history ++
      [⟨"assistant".data, "✓ Created/updated file at '".data ++ p ++ ['\'']⟩,
       ⟨"system".data, fileMsgContent (norm p) c1⟩] ∧
    pyIn (mkMarker (norm p)) (fileMsgContent (norm p) c1) = true ∧
    (create_file norm p c2 true (create_file norm p c1 true st).2).2.history =
      st.history ++
      [⟨"assistant".data, "✓ Created/updated file at '".data ++ p ++ ['\'']⟩,
       ⟨"system".data, fileMsgContent (norm p) c1⟩,
       ⟨"assistant".data, "✓ Created/updated file at '".data ++ p ++ ['\'']⟩,
       ⟨"system".data, fileMsgContent (norm p) c2⟩] ∧
    pyIn (mkMarker (norm p)) (fileMsgContent (norm p) c2) = true := by
  obtain ⟨h1t, h1fs, h1h, h1i⟩ := create_file_accept norm p c1 st i (j :: rest) hinp hi
  obtain ⟨h2t, h2fs, h2h, h2i⟩ :=
    create_file_accept norm p c2 (create_file norm p c1 true st).2 j rest h1i hj
  refine ⟨h1t, h1h, pyIn_marker_fileMsg _ _, ?_, pyIn_marker_fileMsg _ _⟩
  rw [h2h, h1h]
  simp

theorem create_file_two_messages_unconditional_witness :
    (create_file id "a.txt".data "x".data true ⟨[], [], ["y".data, "y".data], []⟩).1 = true ∧
    (create_file id "a.txt".data "x".data true
        ⟨[], [], ["y".data, "y".data], []⟩).2.history = [] ++
      [⟨"assistant".data, "✓ Created/updated file at '".data ++ "a.txt".data ++ ['\'']⟩,
       ⟨"system".data, fileMsgContent "a.txt".data "x".data⟩] ∧
    pyIn (mkMarker "a.txt".data) (fileMsgContent "a.txt".data "x".data) = true ∧
    (create_file id "a.txt".data "z".data true
        (create_file id "a.txt".data "x".data true
          ⟨[], [], ["y".data, "y".data], []⟩).2).2.history = [] ++
      [⟨"assistant".data, "✓ Created/updated file at '".data ++ "a.txt".data ++ ['\'']⟩,
       ⟨"system".data, fileMsgContent "a.txt".data "x".data⟩,
       ⟨"assistant".data, "✓ Created/updated file at '".data ++ "a.txt".data ++ ['\'']⟩,
       ⟨"system".data, fileMsgContent "a.txt".data "z".data⟩] ∧
    pyIn (mkMarker "a.txt".data) (fileMsgContent "a.txt".data "z".data) = true := by
  exact create_file_two_messages_unconditional id "a.txt".data "x".data "z".data
    ⟨[], [], ["y".data, "y".data], []⟩ "y".data "y".data [] rfl (by decide) (by decide)

/-- C1 (code behavior at a failing input): after the batch of one matching
edit is confirmed with "y", `apply_diff_edit` still asks a per-file
overwrite confirmation (it calls `create_file` with its default
`require_confirmation=True`); when that second prompt is declined ("n"),
the file is left unchanged, yet the code prints and records
"✓ Applied diff edit" in the conversation. -/
theorem edit_batch_reconfirms_and_misreports :
    applyEditsBlock id [⟨"a.txt".data, "hello".data, "world".data⟩]
      ⟨[("a.txt".data, "hello".data)], [], ["y".data, "n".data], []⟩ =
    ⟨[("a.txt".data, "hello".data)],
     [⟨"assistant".data, "✓ Applied diff edit to 'a.txt'".data⟩],
     [],
     [.diffTable [⟨"a.txt".data, "hello".data, "world".data⟩],
      .prompt "Do you want to apply these changes?".data,
      .preview "a.txt".data "world".data,
      .prompt "File 'a.txt' already exists. Do you want to overwrite it?".data,
      .text "ℹ File creation cancelled.".data,
      .text "✓ Applied diff edit to 'a.txt'".data]⟩ := by
  decide

/-- C4: one full iteration of the interactive loop only appends to the
conversation: the old history is a prefix of the new one and the length
never decreases; no existing message is mutated or removed. -/
theorem history_append_only (norm : Str → Str) (remote : Remote) (raw : Str)
    (st : St) :
    (∃ tl, (loopStep norm remote raw st).history = st.history ++ tl) ∧
    st.history.length ≤ (loopStep norm remote raw st).history.length := by
  obtain ⟨⟨tl, hh⟩, -⟩ := stepMono_loopStep norm remote raw st
  refine ⟨⟨tl, hh⟩, ?_⟩
  rw [hh]
  simp

/-- C5, counterexample: the marker of `/a` can appear in two conversation
messages, because the message appended for `/b` — whose content happens to
contain the text `Content of file '/a'` — is not checked against `/a`'s
marker.  The substring-based dedup only checks the marker of the path
being appended. -/
theorem marker_twice_counterexample :
    ¬ countMarker (mkMarker "/a".data)
        (gatherContext ["/a".data, "/b".data]
          ⟨[("/a".data, "x".data), ("/b".data, "Content of file '/a'".data)],
           [], [], []⟩).2.history ≤ 1 := by
  decide

/-- C5, amended: a normalized path's marker appears in at most one
conversation message across the guessing path and the ensure-in-context
path, provided no message appended for a *different* path embeds this
path's marker text (no marker-text collision).  Both paths check for the
marker before appending. -/
theorem marker_at_most_once_no_collision (P : Str) (paths : List Str)
    (norm : Str → Str) (x : Str) (st : St)
    (h : countMarker (mkMarker P) st.history ≤ 1)
    (hg : ∀ q, q ∈ paths → q ≠ P → ∀ c, readFS st.fs q = some c →
      pyIn (mkMarker P) (fileMsgContent q c) = false)
    (he : norm x ≠ P → ∀ c, readFS st.fs (norm x) = some c →
      pyIn (mkMarker P) (fileMsgContent (norm x) c) = false) :
    countMarker (mkMarker P) (gatherContext paths st).2.history ≤ 1 ∧
    countMarker (mkMarker P) (ensure_file_in_context norm x st).2.history ≤ 1 :=
  ⟨gather_countMarker_le_one P paths st h hg,
   ensure_countMarker_le_one P norm x st h he⟩

theorem marker_at_most_once_no_collision_witness :
    countMarker (mkMarker "/a".data)
      (gatherContext ["/a".data] ⟨[("/a".data, "x".data)], [], [], []⟩).2.history ≤ 1 ∧
    countMarker (mkMarker "/a".data)
      (ensure_file_in_context id "/a".data
        ⟨[("/a".data, "x".data)], [], [], []⟩).2.history ≤ 1 := by
  exact marker_at_most_once_no_collision "/a".data ["/a".data] id "/a".data
    ⟨[("/a".data, "x".data)], [], [], []⟩ (by decide)
    (fun q hq hne c _ => absurd (by simpa using hq) hne)
    (fun hne => absurd rfl hne)

/-- C6: a remote response that parses as a JSON object but lacks the
`assistant_reply` field decodes to a structured response whose
`assistant_reply` is the empty string; the decoding function is total, so
no exception reaches the caller. -/
theorem missing_reply_defaults_empty (norm : Str → Str) (parsed : Parsed)
    (u : Str) (st : St) (h : parsed.assistant_reply = none) :
    (stream_openai_response norm (.ok parsed) u st).1.assistant_reply = [] := by
  rcases hg : gatherContext (guess_files_in_message norm u) st with ⟨valid, st1⟩
  cases hfe : parsed.files_to_edit with
  | none => simp [stream_openai_response, hg, hfe, h]
  | some l =>
    cases l with
    | nil => simp [stream_openai_response, hg, hfe, h]
    | cons e es =>
      rcases hf : filterEdits norm valid (e :: es) (appendMsg "user".data u st1)
        with ⟨l2, st2⟩
      simp [stream_openai_response, hg, hfe, hf, h]

theorem missing_reply_defaults_empty_witness :
    (stream_openai_response id (.ok ⟨none, none, none⟩) []
      ⟨[], [], [], []⟩).1.assistant_reply = [] :=
  missing_reply_defaults_empty id ⟨none, none, none⟩ [] ⟨[], [], [], []⟩ rfl

/-- C7: when the accumulated stream buffer is not valid JSON, the turn
returns the fixed diagnostic reply with an empty `files_to_create` list
and no `files_to_edit`, and the whole turn — decoding plus the response
application — leaves the filesystem untouched.  The driver makes a single
decoding attempt per turn; there is no retry path. -/
theorem bad_json_soft_fail (norm : Str → Str) (u : Str) (st : St) :
    (modelTurn norm .badJson u st).1 = ⟨jsonErrText, some [], none⟩ ∧
    (modelTurn norm .badJson u st).2.fs = st.fs := by
  rcases hg : gatherContext (guess_files_in_message norm u) st with ⟨valid, st1⟩
  have hfs : st1.fs = st.fs := by
    have h2 := gatherContext_fs (guess_files_in_message norm u) st
    rw [hg] at h2
    exact h2
  constructor
  · simp [modelTurn, stream_openai_response, hg]
  · simp [modelTurn, stream_openai_response, processResponse, hg, hfs]

/-- Evaluation of `create_file` with confirmation requested and declined:
it reports failure, consumes one input line, and leaves the filesystem and
the conversation untouched. -/
theorem create_file_decline (norm : Str → Str) (p c : Str) (st : St) (i : Str)
    (rest : List Str) (hinp : st.inputs = i :: rest)
    (hdec : ¬ pyLower (pyStrip i) = ['y']) :
    (create_file norm p c true st).1 = false ∧
    (create_file norm p c true st).2.fs = st.fs ∧
    (create_file norm p c true st).2.history = st.history ∧
    (create_file norm p c true st).2.inputs = rest := by
  have hd : decide (pyLower (pyStrip i) = ['y']) = false := decide_eq_false hdec
  cases hr : readFS st.fs p with
  | some d =>
    refine ⟨?_, ?_, ?_, ?_⟩ <;>
      simp [create_file, show_file_preview, hr, confirm_action, nextInput, hinp, hd]
  | none =>
    refine ⟨?_, ?_, ?_, ?_⟩ <;>
      simp [create_file, show_file_preview, hr, confirm_action, nextInput, hinp, hd]

/-- The proposed-edits table is always displayed by the edit block. -/
theorem diffTable_mem_applyEditsBlock (norm : Str → Str)
    (edits : List FileToEdit) (st : St) :
    Out.diffTable edits ∈ (applyEditsBlock norm edits st).outputs := by
  rcases hca : confirm_action applyPrompt (emit (.diffTable edits) st) with ⟨ok, st2⟩
  have hm := stepMono_confirm applyPrompt (emit (.diffTable edits) st)
  rw [hca] at hm
  have hmono : stepMono (emit (.diffTable edits) st) (applyEditsBlock norm edits st) := by
    simp only [applyEditsBlock, hca]
    cases ok with
    | true => exact stepMono_trans hm (stepMono_foldl_edits norm edits st2)
    | false => exact stepMono_trans hm (stepMono_emit _ _)
  obtain ⟨-, ⟨t, ht⟩⟩ := hmono
  rw [ht]
  simp

/-- C8: within one turn, declining the first creation prompt applies no
creation at all (same filesystem, same history, one input consumed), and
the turn still proceeds to the edit block: the response application equals
the edit block run on the post-decline state, and the proposed-edits table
is still displayed for batch confirmation. -/
theorem creation_decline_skips_rest_not_edits (norm : Str → Str)
    (c : FileToCreate) (cs : List FileToCreate) (e : FileToEdit)
    (es : List FileToEdit) (reply : Str) (st : St) (i : Str) (rest : List Str)
    (hinp : st.inputs = i :: rest) (hdec : ¬ pyLower (pyStrip i) = ['y']) :
    (applyCreations norm (c :: cs) st).fs = st.fs ∧
    (applyCreations norm (c :: cs) st).history = st.history ∧
    (applyCreations norm (c :: cs) st).inputs = rest ∧
    processResponse norm ⟨reply, some (c :: cs), some (e :: es)⟩ st =
      applyEditsBlock norm (e :: es) (applyCreations norm (c :: cs) st) ∧
    Out.diffTable (e :: es) ∈
      (processResponse norm ⟨reply, some (c :: cs), some (e :: es)⟩ st).outputs := by
  obtain ⟨h1, h2, h3, h4⟩ := create_file_decline norm c.path c.content st i rest hinp hdec
  rcases hc : create_file norm c.path c.content true st with ⟨ok, st1⟩
  rw [hc] at h1 h2 h3 h4
  simp only [] at h1 h2 h3 h4
  subst h1
  have hac : applyCreations norm (c :: cs) st =
      emit (.text "ℹ Skipping remaining file operations.".data) st1 := by
    simp only [applyCreations, hc]
    simp
  have hpr : processResponse norm ⟨reply, some (c :: cs), some (e :: es)⟩ st =
      applyEditsBlock norm (e :: es) (applyCreations norm (c :: cs) st) := by
    simp only [processResponse]
  refine ⟨?_, ?_, ?_, hpr, ?_⟩
  · rw [hac]; simpa using h2
  · rw [hac]; simpa using h3
  · rw [hac]; simpa using h4
  · rw [hpr]
    exact diffTable_mem_applyEditsBlock norm (e :: es) (applyCreations norm (c :: cs) st)

theorem creation_decline_skips_rest_not_edits_witness :
    (applyCreations id [⟨"a.txt".data, "x".data⟩] ⟨[], [], ["n".data], []⟩).fs = [] ∧
    (applyCreations id [⟨"a.txt".data, "x".data⟩] ⟨[], [], ["n".data], []⟩).history = [] ∧
    (applyCreations id [⟨"a.txt".data, "x".data⟩] ⟨[], [], ["n".data], []⟩).inputs = [] ∧
    processResponse id
      ⟨[], some [⟨"a.txt".data, "x".data⟩],
        some [⟨"a.txt".data, "x".data, "y".data⟩]⟩ ⟨[], [], ["n".data], []⟩ =
      applyEditsBlock id [⟨"a.txt".data, "x".data, "y".data⟩]
        (applyCreations id [⟨"a.txt".data, "x".data⟩] ⟨[], [], ["n".data], []⟩) ∧
    Out.diffTable [⟨"a.txt".data, "x".data, "y".data⟩] ∈
      (processResponse id
        ⟨[], some [⟨"a.txt".data, "x".data⟩],
          some [⟨"a.txt".data, "x".data, "y".data⟩]⟩
        ⟨[], [], ["n".data], []⟩).outputs := by
  exact creation_decline_skips_rest_not_edits id ⟨"a.txt".data, "x".data⟩ []
    ⟨"a.txt".data, "x".data, "y".data⟩ [] [] ⟨[], [], ["n".data], []⟩
    "n".data [] rfl (by decide)

end Decker
